import Mathlib

/-!
Verification of the configuration entry type system of `music_assistant_models`
(`config_entries.py`): a shallow embedding of `ConfigEntryType`, `ConfigEntry`,
`ConfigEntry.parse_value`, `Config.parse`, `Config.to_raw`,
`Config.__post_serialize__` (redaction for display) and `Config.update`,
followed by theorems about the claims of the specification.

Python values from the `ConfigValueType` union (plus `dict`, which appears in
serialized output) are embedded as the inductive `PyVal`; machine behaviour
such as Python's cross-type `==`, truthiness, `int()`/`float()` conversion and
`isinstance` are modelled explicitly.
-/

namespace MAConfig

/-- The value kinds of `enums.ConfigEntryType` (a `StrEnum` in the source). -/
inductive ConfigEntryType where
  | boolean
  | string
  | secure_string
  | integer
  | float
  | label
  | integer_tuple
  | divider
  | action
  | icon
  | alert
  | unknown
deriving DecidableEq, Repr

/-- The wire value of each `ConfigEntryType` member (it is a `StrEnum`). -/
def ConfigEntryType.wire : ConfigEntryType → String
  | .boolean => "boolean"
  | .string => "string"
  | .secure_string => "secure_string"
  | .integer => "integer"
  | .float => "float"
  | .label => "label"
  | .integer_tuple => "integer_tuple"
  | .divider => "divider"
  | .action => "action"
  | .icon => "icon"
  | .alert => "alert"
  | .unknown => "unknown"

/-- Embedding of the Python values handled by the config engine: the
`ConfigValueType` union (`float | int | bool | str | list | tuple[int, int]
| Enum | None`) plus `dict`, which occurs in serialized form. Python floats
are modelled as rationals (the engine performs no rounding arithmetic). -/
inductive PyVal where
  | none
  | bool (b : Bool)
  | int (n : Int)
  | float (q : Rat)
  | str (s : String)
  | list (xs : List PyVal)
  | tuple (a b : Int)
  | dict (fields : List (String × PyVal))
  | enum (name : String) (v : PyVal)
deriving Repr

/-- Python `value is None`. -/
def PyVal.isNone : PyVal → Bool
  | .none => true
  | _ => false

mutual

/-- Python `==` on embedded values: numbers (`bool`/`int`/`float`) compare
across types, everything else compares within its own type. -/
def pyEq : PyVal → PyVal → Bool
  | .none, .none => true
  | .bool a, .bool b => a == b
  | .bool a, .int n => (if a then (1 : Int) else 0) == n
  | .int n, .bool a => n == (if a then (1 : Int) else 0)
  | .bool a, .float q => ((if a then (1 : Rat) else 0)) == q
  | .float q, .bool a => q == ((if a then (1 : Rat) else 0))
  | .int n, .int m => n == m
  | .int n, .float q => ((n : Rat)) == q
  | .float q, .int n => q == ((n : Rat))
  | .float q, .float r => q == r
  | .str s, .str t => s == t
  | .list xs, .list ys => pyEqList xs ys
  | .tuple a b, .tuple c d => a == c && b == d
  | .dict xs, .dict ys => pyEqFields xs ys
  | .enum n v, .enum m w => n == m && pyEq v w
  | _, _ => false

/-- Elementwise Python `==` on lists. -/
def pyEqList : List PyVal → List PyVal → Bool
  | [], [] => true
  | x :: xs, y :: ys => pyEq x y && pyEqList xs ys
  | _, _ => false

/-- Fieldwise Python `==` on (ordered) dicts. -/
def pyEqFields : List (String × PyVal) → List (String × PyVal) → Bool
  | [], [] => true
  | (k, x) :: xs, (l, y) :: ys => k == l && pyEq x y && pyEqFields xs ys
  | _, _ => false

end

mutual

/-- Python truthiness of an embedded value. -/
def pyTruthy : PyVal → Bool
  | .none => false
  | .bool b => b
  | .int n => !(n == 0)
  | .float q => !(q == 0)
  | .str s => !(s == "")
  | .list xs => !(pyListEmpty xs)
  | .tuple _ _ => true
  | .dict xs => !(pyFieldsEmpty xs)
  | .enum _ _ => true

/-- Emptiness of a list payload. -/
def pyListEmpty : List PyVal → Bool
  | [] => true
  | _ :: _ => false

/-- Emptiness of a dict payload. -/
def pyFieldsEmpty : List (String × PyVal) → Bool
  | [] => true
  | _ :: _ => false

end

/-- The runtime classes the engine checks values against: the codomain of
`ConfigEntryTypeMap` plus `list` and `NoneType`. `tupleIntInt` stands for
the parameterized generic `tuple[int, int]` stored in the map. -/
inductive PyType where
  | noneT
  | boolT
  | intT
  | floatT
  | strT
  | listT
  | tupleIntInt
deriving DecidableEq, Repr

/-- `ConfigEntryTypeMap.get(self.type, NoneType)`: the expected class for each
entry type; unmapped types (only `UNKNOWN`) give `NoneType`. -/
def configEntryTypeMap : ConfigEntryType → PyType
  | .boolean => .boolT
  | .string => .strT
  | .secure_string => .strT
  | .integer => .intT
  | .integer_tuple => .tupleIntInt
  | .float => .floatT
  | .label => .strT
  | .divider => .strT
  | .action => .strT
  | .alert => .strT
  | .icon => .strT
  | .unknown => .noneT

/-- Python `isinstance(value, t)`. A `bool` is an instance of `int` (bool
subclasses int); `isinstance` with the parameterized generic `tuple[int, int]`
raises `TypeError`, modelled as `.error`. -/
def isinstance (v : PyVal) : PyType → Except String Bool
  | .tupleIntInt =>
    .error "TypeError: isinstance() argument 2 cannot be a parameterized generic"
  | .noneT => .ok (match v with | .none => true | _ => false)
  | .boolT => .ok (match v with | .bool _ => true | _ => false)
  | .intT => .ok (match v with | .bool _ => true | .int _ => true | _ => false)
  | .floatT => .ok (match v with | .float _ => true | _ => false)
  | .strT => .ok (match v with | .str _ => true | _ => false)
  | .listT => .ok (match v with | .list _ => true | _ => false)

/-- Python `float(x)` for an `int`-instance `x` (an `int` or a `bool`). -/
def pyFloatOfIntLike : PyVal → Rat
  | .int n => (n : Rat)
  | .bool b => if b then 1 else 0
  | _ => 0

/-- Python `int(x)` for a `float` `x`: truncation toward zero. -/
def truncTowardZero (q : Rat) : Int :=
  if 0 ≤ q then ⌊q⌋ else -⌊-q⌋

/-- Digit-string to number, `Option.none` on empty or non-digit input. -/
def parseDigits : List Char → Option Nat
  | [] => Option.none
  | cs =>
    cs.foldl
      (fun acc c =>
        match acc with
        | Option.none => Option.none
        | Option.some n => if c.isDigit then Option.some (n * 10 + (c.toNat - 48)) else Option.none)
      (Option.some 0)

/-- Model of Python `int(s)` for a string `s`: optional sign then digits;
`ValueError` (e.g. for `"42.0"`) is `Option.none`. -/
def pyIntOfString (s : String) : Option Int :=
  match s.toList with
  | '-' :: rest => (parseDigits rest).map (fun n => -(n : Int))
  | '+' :: rest => (parseDigits rest).map (fun n => (n : Int))
  | cs => (parseDigits cs).map (fun n => (n : Int))

/-- Digits with an optional single decimal point to a rational. -/
def parseDecimal (cs : List Char) : Option Rat :=
  match cs.splitOn '.' with
  | [whole] => (parseDigits whole).map (fun n => (n : Rat))
  | [whole, frac] =>
    if whole.isEmpty && frac.isEmpty then Option.none
    else
      let w : Nat := (parseDigits whole).getD 0
      let wOk : Bool := whole.isEmpty || (parseDigits whole).isSome
      let f : Nat := (parseDigits frac).getD 0
      let fOk : Bool := frac.isEmpty || (parseDigits frac).isSome
      if wOk && fOk then Option.some ((w : Rat) + (f : Rat) / ((10 : Rat) ^ frac.length))
      else Option.none
  | _ => Option.none

/-- Model of Python `float(s)` for a string `s` (plain decimal forms). -/
def pyFloatOfString (s : String) : Option Rat :=
  match s.toList with
  | '-' :: rest => (parseDecimal rest).map (fun q => -q)
  | '+' :: rest => parseDecimal rest
  | cs => parseDecimal cs

/-- `ConfigValueOption`: a value with separated name/value. -/
structure ConfigValueOption where
  title : String
  value : PyVal
deriving Repr

/-- `ConfigEntry`: the definition of something that can be configured,
plus its current `value` (set by the config manager/flow). -/
structure ConfigEntry where
  key : String
  type : ConfigEntryType
  label : String
  default_value : PyVal := PyVal.none
  required : Bool := true
  options : Option (List ConfigValueOption) := Option.none
  range : Option (Int × Int) := Option.none
  description : Option String := Option.none
  help_link : Option String := Option.none
  multi_value : Bool := false
  depends_on : Option String := Option.none
  depends_on_value : Option String := Option.none
  hidden : Bool := false
  category : String := "generic"
  action : Option String := Option.none
  action_label : Option String := Option.none
  value : PyVal := PyVal.none
deriving Repr

/-- `UI_ONLY = (LABEL, DIVIDER, ACTION, ALERT)`. -/
def uiOnly (t : ConfigEntryType) : Bool :=
  t == .label || t == .divider || t == .action || t == .alert

/-- `ConfigEntry.parse_value(self, value, allow_none=True)`: parse a value
from the config entry details and a plain value. Returns the updated entry
(the source writes the result into `self.value`) together with the returned
value; a raised `ValueError`/`TypeError` is `.error`. -/
def ConfigEntry.parse_value (e : ConfigEntry) (value : PyVal)
    (allow_none : Bool := true) : Except String (ConfigEntry × PyVal) :=
  let expected_type : PyType :=
    if e.multi_value then .listT else configEntryTypeMap e.type
  let value : PyVal := if value.isNone then e.default_value else value
  let expected_type : PyType :=
    if value.isNone && (!e.required || allow_none) then .noneT else expected_type
  let value : PyVal := if e.type == .label then .str e.label else value
  match isinstance value expected_type with
  | .error m => .error m
  | .ok true => .ok ({ e with value := value }, value)
  | .ok false =>
    -- handle common conversions/mistakes
    if expected_type == .floatT && (match value with | .int _ => true | .bool _ => true | _ => false) then
      .ok ({ e with value := .float (pyFloatOfIntLike value) }, .float (pyFloatOfIntLike value))
    else if expected_type == .intT && (match value with | .float _ => true | _ => false) then
      let q : Rat := match value with | .float q => q | _ => 0
      .ok ({ e with value := .int (truncTowardZero q) }, .int (truncTowardZero q))
    -- convert int/float from string, in the source's loop order (int, float)
    else match expected_type, value, (match value with | .str s => pyIntOfString s | _ => Option.none),
        (match value with | .str s => pyFloatOfString s | _ => Option.none) with
    | .intT, .str _, Option.some n, _ =>
      .ok ({ e with value := .int n }, .int n)
    | .floatT, .str _, _, Option.some q =>
      .ok ({ e with value := .float q }, .float q)
    | _, _, _, _ =>
      if uiOnly e.type then
        .ok ({ e with value := e.default_value }, e.default_value)
      else
        -- fallback to default (logs a warning in the source)
        let value : PyVal := if !e.default_value.isNone then e.default_value else value
        if !(value.isNone && allow_none) then
          .error (e.key ++ " has unexpected type")
        else
          .ok ({ e with value := value }, value)

/-- First-occurrence lookup in an association list (a Python `dict` has
unique keys, so first occurrence is the occurrence). -/
def dictLookup (xs : List (String × α)) (k : String) : Option α :=
  match xs with
  | [] => Option.none
  | (l, v) :: rest => if l == k then Option.some v else dictLookup rest k

/-- Python `d.get(k)`: the stored value, or `None` when absent. -/
def dictGet (xs : List (String × PyVal)) (k : String) : PyVal :=
  (dictLookup xs k).getD PyVal.none

/-- Python `d[k] = v`: overwrite in place when the key exists (keeping its
position), else append. -/
def dictSet (xs : List (String × α)) (k : String) (v : α) : List (String × α) :=
  match xs with
  | [] => [(k, v)]
  | (l, w) :: rest => if l == k then (l, v) :: rest else (l, w) :: dictSet rest k v

/-- Update the value stored at the first occurrence of `k` (no-op if absent). -/
def dictModify (xs : List (String × α)) (k : String) (f : α → α) : List (String × α) :=
  match xs with
  | [] => []
  | (l, w) :: rest => if l == k then (l, f w) :: rest else (l, w) :: dictModify rest k f

/-- `constants.SECURE_STRING_SUBSTITUTE`. Modelled from the spec: the
`constants` module is not among the sources; the spec describes this as "a
fixed opaque placeholder marker" / "a fixed, non-secret placeholder string". -/
def SECURE_STRING_SUBSTITUTE : String := "this_value_is_encrypted"

/-- The in-place unwrapping `entry.default_value = entry.default_value.value`
performed by `Config.parse` when the default is an `Enum` member. -/
def unwrapEnumDefault (e : ConfigEntry) : ConfigEntry :=
  match e.default_value with
  | .enum _ v => { e with default_value := v }
  | _ => e

/-- Base `Config`: an ordered mapping from entry key to `ConfigEntry`.
(The concrete `ProviderConfig`/`PlayerConfig` variants add root fields,
modelled separately as `RootedConfig`.) -/
structure Config where
  values : List (String × ConfigEntry)
deriving Repr

/-- One step of `Config.parse`: mutate the schema entry (enum-default
unwrapping), copy it (`ConfigEntry.from_dict(entry.to_dict())`), and parse
the raw value for its key with `allow_none=True`. -/
def parseEntries (vals : List (String × ConfigEntry)) (schema : List ConfigEntry)
    (rawValues : List (String × PyVal)) :
    Except String (List (String × ConfigEntry) × List ConfigEntry) :=
  match schema with
  | [] => .ok (vals, [])
  | e :: rest =>
    let e' := unwrapEnumDefault e
    match e'.parse_value (dictGet rawValues e'.key) true with
    | .error m => .error m
    | .ok (ne, _) =>
      match parseEntries (dictSet vals e'.key ne) rest rawValues with
      | .error m => .error m
      | .ok (vals', muts) => .ok (vals', e' :: muts)

/-- `Config.parse(config_entries, raw)`: build a `Config` from the schema and
the raw persisted values (`raw["values"]`). Besides the built `Config` the
embedding returns the post-call state of the caller-supplied schema entries,
which the source mutates in place (enum-default unwrapping). -/
def Config.parse (schema : List ConfigEntry) (rawValues : List (String × PyVal)) :
    Except String (Config × List ConfigEntry) :=
  match parseEntries [] schema rawValues with
  | .error m => .error m
  | .ok (vals, muts) => .ok (⟨vals⟩, muts)

/-- `_handle_value` inside `Config.to_raw`: secure strings are passed through
the encrypt callback (assertions modelled as errors). -/
def handleValue (enc : Option (String → String)) (e : ConfigEntry) :
    Except String PyVal :=
  if e.type == .secure_string then
    match e.value, enc with
    | .str s, Option.some f => .ok (.str (f s))
    | .str _, Option.none => .error "AssertionError: ENCRYPT_CALLBACK is None"
    | _, _ => .error "AssertionError: value is not a str"
  else
    .ok e.value

/-- The `values` comprehension of `Config.to_raw`: keep only entries whose
current value differs from their default and whose type is not UI-only,
keyed by `x.key`. -/
def toRawValues (enc : Option (String → String)) :
    List (String × ConfigEntry) → Except String (List (String × PyVal))
  | [] => .ok []
  | (_, e) :: rest =>
    if !(pyEq e.value e.default_value) && !(uiOnly e.type) then
      match handleValue enc e with
      | .error m => .error m
      | .ok v =>
        match toRawValues enc rest with
        | .error m => .error m
        | .ok vs => .ok ((e.key, v) :: vs)
    else
      toRawValues enc rest

/-- `Config.to_raw()`: the minimized raw dict for persistent storage. For the
base `Config` the result is exactly `{"values": <this mapping>}`; the
embedding returns that values mapping. -/
def Config.to_raw (c : Config) (enc : Option (String → String)) :
    Except String (List (String × PyVal)) :=
  toRawValues enc c.values

/-- Serialization of one `ConfigValueType` value (mashumaro passes the raw
value through, with `Enum` members serialized by value). -/
def serializeValue : PyVal → PyVal
  | .enum _ v => v
  | v => v

/-- Serialization of an `Option String` field. -/
def serializeOptStr : Option String → PyVal
  | Option.none => PyVal.none
  | Option.some s => .str s

/-- mashumaro `to_dict` of one `ConfigValueOption`. -/
def ConfigValueOption.to_dict (o : ConfigValueOption) : PyVal :=
  .dict [("title", .str o.title), ("value", serializeValue o.value)]

/-- mashumaro `to_dict` of one `ConfigEntry`: all dataclass fields, in
declaration order. -/
def ConfigEntry.to_dict (e : ConfigEntry) : PyVal :=
  .dict
    [("key", .str e.key),
     ("type", .str e.type.wire),
     ("label", .str e.label),
     ("default_value", serializeValue e.default_value),
     ("required", .bool e.required),
     ("options",
       match e.options with
       | Option.none => PyVal.none
       | Option.some os => .list (os.map ConfigValueOption.to_dict)),
     ("range",
       match e.range with
       | Option.none => PyVal.none
       | Option.some (a, b) => .list [.int a, .int b]),
     ("description", serializeOptStr e.description),
     ("help_link", serializeOptStr e.help_link),
     ("multi_value", .bool e.multi_value),
     ("depends_on", serializeOptStr e.depends_on),
     ("depends_on_value", serializeOptStr e.depends_on_value),
     ("hidden", .bool e.hidden),
     ("category", .str e.category),
     ("action", serializeOptStr e.action),
     ("action_label", serializeOptStr e.action_label),
     ("value", serializeValue e.value)]

/-- Overwrite the `"value"` field of one serialized entry dict with the
secure-string placeholder. -/
def redactEntryDict (entryDict : PyVal) : PyVal :=
  match entryDict with
  | .dict efields => .dict (dictSet efields "value" (.str SECURE_STRING_SUBSTITUTE))
  | other => other

/-- `d["values"][key]["value"] = SECURE_STRING_SUBSTITUTE` on a serialized
config dict. -/
def redactValueField (d : PyVal) (key : String) : PyVal :=
  match d with
  | .dict fields =>
    .dict (dictModify fields "values" (fun inner =>
      match inner with
      | .dict entries => .dict (dictModify entries key redactEntryDict)
      | other => other))
  | other => other

/-- `Config.__post_serialize__`: drop all password values from the serialized
dict (replace the `value` of every non-empty `SECURE_STRING` entry). -/
def Config.post_serialize (c : Config) (d : PyVal) : PyVal :=
  c.values.foldl
    (fun d p =>
      if pyTruthy p.2.value && p.2.type == .secure_string then redactValueField d p.1
      else d)
    d

/-- `Config.to_dict()` for the base `Config`: serialize the entry mapping and
apply the `__post_serialize__` hook. -/
def Config.to_dict (c : Config) : PyVal :=
  c.post_serialize (.dict [("values", .dict (c.values.map (fun p => (p.1, p.2.to_dict))))])

/-- A configuration variant carrying the root fields `enabled` and `name`
(as `ProviderConfig`/`PlayerConfig` do); the root attributes hold whatever
Python value `setattr` stored. -/
structure RootedConfig where
  values : List (String × ConfigEntry)
  enabled : PyVal
  name : PyVal
deriving Repr

/-- The root-field loop of `Config.update`: for `"enabled"` then `"name"`,
compare with `==` and overwrite on difference, recording the field name. -/
def applyRootValues (c : RootedConfig) (upd : List (String × PyVal)) :
    RootedConfig × List String :=
  let step := fun (acc : RootedConfig × List String) (key : String)
      (get : RootedConfig → PyVal) (set : RootedConfig → PyVal → RootedConfig) =>
    match dictLookup upd key with
    | Option.none => acc
    | Option.some newVal =>
      if pyEq newVal (get acc.1) then acc
      else (set acc.1 newVal, acc.2 ++ [key])
  let acc := step (c, []) "enabled" (fun c => c.enabled) (fun c v => { c with enabled := v })
  step acc "name" (fun c => c.name) (fun c v => { c with name := v })

/-- The entry loop of `Config.update`: for each non-root key that exists in
the mapping, re-parse (which writes the parsed value into the entry) and
record `"values/" + key` when the parsed value differs from the previous one.
A raised error propagates; the mutations made so far remain (first
component), and the changed-key set is lost (`.error`). -/
def updateEntries (vals : List (String × ConfigEntry))
    (items : List (String × PyVal)) (changed : List String) :
    List (String × ConfigEntry) × Except String (List String) :=
  match items with
  | [] => (vals, .ok changed)
  | (key, newVal) :: rest =>
    if key == "enabled" || key == "name" then
      updateEntries vals rest changed
    else
      match dictLookup vals key with
      | Option.none => updateEntries vals rest changed
      | Option.some entry =>
        let curVal := entry.value
        match entry.parse_value newVal true with
        | .error m => (vals, .error m)
        | .ok (ne, parsedVal) =>
          let vals' := dictSet vals key ne
          if !(pyEq curVal parsedVal) then
            updateEntries vals' rest (changed ++ ["values/" ++ key])
          else
            updateEntries vals' rest changed

/-- `Config.update(update)`: apply root-field changes, then entry changes in
bag order; on success the changed-key set is returned, on a coercion error
the error propagates while the state reached so far remains. -/
def RootedConfig.update (c : RootedConfig) (upd : List (String × PyVal)) :
    RootedConfig × Except String (List String) :=
  let rooted := applyRootValues c upd
  let looped := updateEntries rooted.1.values upd rooted.2
  ({ rooted.1 with values := looped.1 }, looped.2)

/-- `Config.validate()`: re-parse every current entry value against itself
with `allow_none=False`; fails on required entries holding no value. -/
def Config.validate (c : Config) : Except String Config :=
  match
    c.values.foldlM
      (fun (acc : List (String × ConfigEntry)) p => do
        let r ← p.2.parse_value p.2.value false
        pure (dictSet acc p.1 r.1))
      c.values with
  | .error m => .error m
  | .ok vals => .ok ⟨vals⟩

mutual

/-- Does the string `needle` occur as a string value anywhere in a serialized
tree? -/
def mentions (needle : String) : PyVal → Bool
  | .str s => s == needle
  | .list xs => mentionsList needle xs
  | .dict fs => mentionsFields needle fs
  | .enum _ v => mentions needle v
  | _ => false

/-- `mentions` over a list payload. -/
def mentionsList (needle : String) : List PyVal → Bool
  | [] => false
  | x :: xs => mentions needle x || mentionsList needle xs

/-- `mentions` over a dict payload (values only). -/
def mentionsFields (needle : String) : List (String × PyVal) → Bool
  | [] => false
  | (_, x) :: xs => mentions needle x || mentionsFields needle xs

end

/-- `d["values"][k]["value"]` of a serialized config dict. -/
def valueFieldOf (d : PyVal) (k : String) : Option PyVal :=
  match d with
  | .dict fields =>
    match dictLookup fields "values" with
    | Option.some (.dict entries) =>
      match dictLookup entries k with
      | Option.some (.dict efields) => dictLookup efields "value"
      | _ => Option.none
    | _ => Option.none
  | _ => Option.none

/-- Replace the current value of the entry stored at key `k`. -/
def setEntryValue (c : Config) (k : String) (v : PyVal) : Config :=
  ⟨dictModify c.values k (fun e => { e with value := v })⟩

/-- The expected type family of an entry before any absence relaxation:
`list if self.multi_value else ConfigEntryTypeMap.get(self.type, NoneType)`. -/
def expectedOf (e : ConfigEntry) : PyType :=
  if e.multi_value then .listT else configEntryTypeMap e.type

/-- A well-typed schema default: absent, or an instance of the entry's
expected family (the spec's data-model invariant for entry definitions). -/
def defaultOk (e : ConfigEntry) : Prop :=
  e.default_value = PyVal.none ∨ isinstance e.default_value (expectedOf e) = .ok true

/-- Concrete schema entry for the C3 counterexample: a secure string. -/
def cexSecureEntry : ConfigEntry :=
  { key := "pw", type := .secure_string, label := "Password" }

/-- Deterministic but non-idempotent encrypt callback for the C3
counterexample. -/
def cexPrefixEncrypt : String → String := fun s => "E" ++ s

/-- `build` then `export_minimal` in one step (for the base `Config`):
parse from the raw values bag, then produce the minimal raw values bag. -/
def buildThenExport (schema : List ConfigEntry) (rawValues : List (String × PyVal))
    (enc : Option (String → String)) : Except String (List (String × PyVal)) :=
  match Config.parse schema rawValues with
  | .error m => .error m
  | .ok (c, _) => c.to_raw enc

/-- The C4 scenario schema entry: key `volume`, Integer, default 50,
range (0, 100). -/
def volumeEntry : ConfigEntry :=
  { key := "volume", type := .integer, label := "Volume",
    default_value := .int 50, range := Option.some (0, 100) }

/-- The C2 counterexample configuration: a non-empty secure string whose
plaintext also coincides with the entry's (serialized) `default_value`. -/
def cexSecretConfig : Config :=
  ⟨[("pw",
     { key := "pw", type := .secure_string, label := "Password",
       default_value := .str "s3cret", value := .str "s3cret" })]⟩

/-- Nesting depth through `enum` payloads (used to show the in-place enum
unwrapping really changes the entry). -/
def pyDepth : PyVal → Nat
  | .enum _ v => pyDepth v + 1
  | _ => 0

/-- The `values`-dict transformation performed by `Config.post_serialize` on
the serialized inner mapping, expressed as a fold over the entry mapping. -/
def redactAll (vals : List (String × ConfigEntry)) (L : List (String × PyVal)) :
    List (String × PyVal) :=
  vals.foldl
    (fun L p =>
      if pyTruthy p.2.value && p.2.type == .secure_string then dictModify L p.1 redactEntryDict
      else L)
    L

/-- One schema entry's build step (enum unwrap, copy, coerce), returning the
populated runtime entry. -/
def parseRow (raw : List (String × PyVal)) (e : ConfigEntry) :
    Except String ConfigEntry :=
  match (unwrapEnumDefault e).parse_value (dictGet raw (unwrapEnumDefault e).key) true with
  | .error m => .error m
  | .ok (ne, _) => .ok ne

/-- The entry mapping built by `Config.parse`, without the imperative
accumulator: one row per schema entry, in schema order. -/
def buildRows (raw : List (String × PyVal)) :
    List ConfigEntry → Except String (List (String × ConfigEntry))
  | [] => .ok []
  | e :: rest =>
    match parseRow raw e with
    | .error m => .error m
    | .ok ne =>
      match buildRows raw rest with
      | .error m => .error m
      | .ok tail => .ok ((e.key, ne) :: tail)

/-! ## Helper lemmas -/

mutual

/-- Python `==` is reflexive on embedded values. -/
theorem pyEq_refl : (v : PyVal) → pyEq v v = true
  | .none => rfl
  | .bool b => by simp [pyEq]
  | .int n => by simp [pyEq]
  | .float q => by simp [pyEq]
  | .str s => by simp [pyEq]
  | .list xs => by simpa [pyEq] using pyEqList_refl xs
  | .tuple a b => by simp [pyEq]
  | .dict fs => by simpa [pyEq] using pyEqFields_refl fs
  | .enum n v => by simpa [pyEq] using pyEq_refl v

/-- Elementwise reflexivity. -/
theorem pyEqList_refl : (xs : List PyVal) → pyEqList xs xs = true
  | [] => rfl
  | x :: xs => by simp [pyEqList, pyEq_refl x, pyEqList_refl xs]

/-- Fieldwise reflexivity. -/
theorem pyEqFields_refl : (xs : List (String × PyVal)) → pyEqFields xs xs = true
  | [] => rfl
  | (k, x) :: xs => by simp [pyEqFields, pyEq_refl x, pyEqFields_refl xs]

end

/-! ## Claim C1 -/

/-- Claim C1 (code bug): on a family mismatch with no applicable conversion,
a non-UI-only kind and a non-none default whose family does match, the source
logs "fallback to default" and substitutes the default — but then raises
`ValueError` unconditionally, because the substituted default is non-none and
`not (value is None and allow_none)` therefore holds. Evaluated at the failing
input: a String entry with default `"abc"` and raw value `42`. -/
theorem c1_default_fallback_still_raises :
    (let e : ConfigEntry :=
      { key := "host", type := .string, label := "Host", default_value := .str "abc" }
     isinstance e.default_value (expectedOf e) = .ok true ∧ uiOnly e.type = false ∧
       e.parse_value (.int 42) true = .error "host has unexpected type") :=
  ⟨rfl, rfl, rfl⟩

/-- `isNone` characterizes the `none` value. -/
theorem PyVal.isNone_iff (v : PyVal) : v.isNone = true ↔ v = PyVal.none := by
  cases v <;> simp [PyVal.isNone]

/-! ## Claim C4 -/

/-- Claim C4 counterexample: calling `update` with the prefixed key
`"values/volume"` (as the claim states) does not parse or store anything —
the key is neither a root field nor present in the entry mapping, so it is
silently ignored: the changed set is empty and the value remains 50. -/
theorem c4_prefixed_update_key_ignored :
    RootedConfig.update
        ⟨[("volume", { volumeEntry with value := .int 50 })], .bool true, PyVal.none⟩
        [("values/volume", .str "75")]
      = (⟨[("volume", { volumeEntry with value := .int 50 })], .bool true, PyVal.none⟩,
         .ok []) :=
  rfl

/-- Claim C4 (amended): in the volume scenario, `build` on an empty raw bag
yields value 50 and `export_minimal` omits `"volume"`; `update` must be
called with the bare entry key `{"volume": "75"}` (the `values/` prefix
appears only in the returned changed-set): that call parses the string to
integer 75, stores it, and returns changed set `{"values/volume"}`, after
which `export_minimal` includes `"volume": 75`. -/
theorem c4_volume_scenario :
    Config.parse [volumeEntry] []
        = .ok (⟨[("volume", { volumeEntry with value := .int 50 })]⟩, [volumeEntry]) ∧
      Config.to_raw ⟨[("volume", { volumeEntry with value := .int 50 })]⟩ Option.none
        = .ok [] ∧
      RootedConfig.update
          ⟨[("volume", { volumeEntry with value := .int 50 })], .bool true, PyVal.none⟩
          [("volume", .str "75")]
        = (⟨[("volume", { volumeEntry with value := .int 75 })], .bool true, PyVal.none⟩,
           .ok ["values/volume"]) ∧
      Config.to_raw ⟨[("volume", { volumeEntry with value := .int 75 })]⟩ Option.none
        = .ok [("volume", .int 75)] :=
  ⟨rfl, rfl, rfl, rfl⟩

/-! ## Claim C5 -/

/-- Claim C5 counterexample: for a Label entry with no default, coercing an
absent raw value does not return the label: the expected type is first
relaxed to `NoneType` (value absent, `allow_none`), the label substitution
then mismatches it, and the UI-only branch returns the (none) default. -/
theorem c5_label_absent_returns_none :
    (let e : ConfigEntry := { key := "k", type := .label, label := "hello" }
     e.parse_value PyVal.none true = .ok ({ e with value := PyVal.none }, PyVal.none) ∧
       (PyVal.none : PyVal) ≠ .str "hello") :=
  ⟨rfl, by simp⟩

/-- Claim C5 (amended): for every Label entry with `multi_value` off, the
coercion engine returns the entry's label string for every raw input —
except when the raw value is absent, the default is none, and absence is
acceptable (entry not required, or allow-missing set), in which case it
returns none. (With `multi_value` on, the label mismatches the expected
`list` family and the default is returned instead.) -/
theorem c5_label_yields_label (e : ConfigEntry) (x : PyVal) (a : Bool)
    (hmv : e.multi_value = false) (ht : e.type = .label) :
    e.parse_value x a =
      if x.isNone = true ∧ e.default_value.isNone = true ∧
          (e.required = false ∨ a = true) then
        .ok ({ e with value := e.default_value }, e.default_value)
      else
        .ok ({ e with value := .str e.label }, .str e.label) := by
  simp only [ConfigEntry.parse_value, hmv, ht]
  by_cases hx : x.isNone <;> by_cases hd : e.default_value.isNone <;>
      by_cases hr : (e.required = false ∨ a = true) <;>
    simp [hx, hd, hr, isinstance, configEntryTypeMap, uiOnly]

/-- Witness for C5 at a concrete input: a required Label entry with a string
default and raw value `3` yields the label. -/
theorem c5_label_yields_label_witness :
    (let e : ConfigEntry :=
      { key := "k", type := .label, label := "hello", default_value := .str "d" }
     e.parse_value (.int 3) true
       = .ok ({ e with value := .str "hello" }, .str "hello")) := by
  have h := c5_label_yields_label
    { key := "k", type := .label, label := "hello", default_value := .str "d" }
    (.int 3) true rfl rfl
  simpa using h

/-! ## Claim C6 -/

/-- Claim C6 counterexample: a Label entry with non-none default `"d"` and
label `"l"` coerces an absent value to the label, not to the default — the
label substitution overrides the substituted default before the type check. -/
theorem c6_label_default_not_returned :
    (let e : ConfigEntry :=
      { key := "k", type := .label, label := "l", default_value := .str "d" }
     e.parse_value PyVal.none true = .ok ({ e with value := .str "l" }, .str "l") ∧
       (PyVal.str "l" : PyVal) ≠ .str "d") :=
  ⟨rfl, by simp⟩

/-- Claim C6 (amended): for every entry with a non-none declared default
whose kind is not Label and whose default is itself of the entry's expected
family, coercing an absent (none) raw value yields exactly that default
(enum-typed defaults having been unwrapped to their underlying primitive
during build, so they never occur here). -/
theorem c6_absent_yields_default (e : ConfigEntry) (a : Bool)
    (ht : e.type ≠ ConfigEntryType.label)
    (hd : e.default_value.isNone = false)
    (hm : isinstance e.default_value (expectedOf e) = .ok true) :
    e.parse_value PyVal.none a = .ok ({ e with value := e.default_value }, e.default_value) := by
  have ht' : (e.type == ConfigEntryType.label) = false := by simp [ht]
  simp only [expectedOf] at hm
  simp [ConfigEntry.parse_value, show PyVal.none.isNone = true from rfl, hd, ht', hm]

/-- Witness for C6 at a concrete input: the Integer volume entry with default
50 coerces an absent value to 50. -/
theorem c6_absent_yields_default_witness :
    volumeEntry.parse_value PyVal.none true
      = .ok ({ volumeEntry with value := .int 50 }, .int 50) := by
  have h := c6_absent_yields_default volumeEntry true (by decide) rfl rfl
  simpa using h

/-! ## Claim C8 -/

/-- Claim C8: on a Configuration whose `enabled` root field is currently
true, `update({"enabled": False})` sets `enabled` to false and returns
exactly `{"enabled"}`; applying the same update to the result returns the
empty set and leaves the Configuration unchanged. -/
theorem c8_enabled_toggle (c : RootedConfig) (h : c.enabled = PyVal.bool true) :
    RootedConfig.update c [("enabled", PyVal.bool false)]
        = ({ c with enabled := PyVal.bool false }, .ok ["enabled"]) ∧
      RootedConfig.update { c with enabled := PyVal.bool false }
          [("enabled", PyVal.bool false)]
        = ({ c with enabled := PyVal.bool false }, .ok []) := by
  constructor <;>
    simp [RootedConfig.update, applyRootValues, updateEntries, dictLookup, h, pyEq,
      show (("enabled" : String) == "name") = false from rfl]

/-- Witness for C8 at a concrete enabled configuration. -/
theorem c8_enabled_toggle_witness :
    RootedConfig.update ⟨[], PyVal.bool true, PyVal.none⟩ [("enabled", PyVal.bool false)]
        = (⟨[], PyVal.bool false, PyVal.none⟩, .ok ["enabled"]) ∧
      RootedConfig.update ⟨[], PyVal.bool false, PyVal.none⟩ [("enabled", PyVal.bool false)]
        = (⟨[], PyVal.bool false, PyVal.none⟩, .ok []) := by
  have h := c8_enabled_toggle ⟨[], PyVal.bool true, PyVal.none⟩ rfl
  simpa using h

/-! ## Claim C9 -/

/-- An enum value strictly contains its payload. -/
theorem pyEnum_ne_payload (n : String) (v : PyVal) : PyVal.enum n v ≠ v := by
  intro h
  have hd := congrArg pyDepth h
  simp [pyDepth] at hd

/-- The mutated-schema component returned by `parseEntries` is the
enum-unwrapped schema. -/
theorem parseEntries_muts (schema : List ConfigEntry) :
    ∀ (vals : List (String × ConfigEntry)) (raw : List (String × PyVal))
      (vals' : List (String × ConfigEntry)) (muts : List ConfigEntry),
      parseEntries vals schema raw = .ok (vals', muts) →
      muts = schema.map unwrapEnumDefault := by
  induction schema with
  | nil =>
    intro vals raw vals' muts h
    simp [parseEntries] at h
    simp [h.2]
  | cons e rest ih =>
    intro vals raw vals' muts h
    simp only [parseEntries] at h
    cases hp : (unwrapEnumDefault e).parse_value (dictGet raw (unwrapEnumDefault e).key) true with
    | error m => rw [hp] at h; cases h
    | ok p =>
      obtain ⟨ne, v⟩ := p
      rw [hp] at h
      simp only at h
      cases hr : parseEntries (dictSet vals (unwrapEnumDefault e).key ne) rest raw with
      | error m => rw [hr] at h; cases h
      | ok q =>
        obtain ⟨vals2, muts2⟩ := q
        rw [hr] at h
        simp only [Except.ok.injEq, Prod.mk.injEq] at h
        obtain ⟨h1, h2⟩ := h
        subst h2
        simp [ih _ _ _ _ hr]

/-- Claim C9: `Config.parse` mutates the caller-supplied schema — after a
successful build, the caller's entry list is the enum-unwrapped one, and for
every entry whose default was an enum member the caller's entry now carries
the enum's underlying primitive value (a genuinely different entry). -/
theorem c9_parse_mutates_schema (schema : List ConfigEntry)
    (raw : List (String × PyVal)) (c : Config) (s1 : List ConfigEntry)
    (h : Config.parse schema raw = .ok (c, s1)) :
    s1 = schema.map unwrapEnumDefault ∧
      ∀ e ∈ schema, ∀ n v, e.default_value = PyVal.enum n v →
        (unwrapEnumDefault e).default_value = v ∧ unwrapEnumDefault e ≠ e := by
  constructor
  · simp only [Config.parse] at h
    cases hp : parseEntries [] schema raw with
    | error m => rw [hp] at h; cases h
    | ok q => rw [hp] at h; cases h; exact parseEntries_muts schema [] raw q.1 q.2 hp
  · intro e _ n v hdef
    have h1 : (unwrapEnumDefault e).default_value = v := by
      simp [unwrapEnumDefault, hdef]
    refine ⟨h1, fun hcontra => ?_⟩
    have h2 := congrArg ConfigEntry.default_value hcontra
    rw [h1, hdef] at h2
    exact pyEnum_ne_payload n v h2.symm

/-- Witness for C9: building a one-entry schema whose default is an enum
member succeeds, so the mutation conclusion applies to it. -/
theorem c9_parse_mutates_schema_witness :
    (let e : ConfigEntry :=
      { key := "mode", type := .string, label := "Mode",
        default_value := .enum "Mode.FAST" (.str "fast") }
     (unwrapEnumDefault e).default_value = .str "fast" ∧ unwrapEnumDefault e ≠ e) := by
  have h := c9_parse_mutates_schema
    [{ key := "mode", type := .string, label := "Mode",
       default_value := .enum "Mode.FAST" (.str "fast") }] [] _ _ rfl
  exact h.2 _ (by simp) "Mode.FAST" (.str "fast") rfl

/-! ## Claim C10 -/

/-- The entry loop processes the bag left to right: a successful run over a
first segment continues from its state. -/
theorem updateEntries_append (pre : List (String × PyVal)) :
    ∀ (vals : List (String × ConfigEntry)) (changed : List String)
      (rest : List (String × PyVal)) (vals1 : List (String × ConfigEntry))
      (ch1 : List String),
      updateEntries vals pre changed = (vals1, .ok ch1) →
      updateEntries vals (pre ++ rest) changed = updateEntries vals1 rest ch1 := by
  induction pre with
  | nil =>
    intro vals changed rest vals1 ch1 h
    simp [updateEntries] at h
    simp [h.1, h.2]
  | cons kv pre ih =>
    intro vals changed rest vals1 ch1 h
    obtain ⟨key, newVal⟩ := kv
    simp only [updateEntries, List.cons_append] at h ⊢
    by_cases hroot : (key == "enabled" || key == "name") = true
    · rw [if_pos hroot] at h ⊢
      exact ih _ _ _ _ _ h
    · rw [if_neg hroot] at h ⊢
      cases hl : dictLookup vals key with
      | none =>
        simp only [hl] at h ⊢
        exact ih _ _ _ _ _ h
      | some entry =>
        simp only [hl] at h ⊢
        cases hpv : entry.parse_value newVal true with
        | error m =>
          simp only [hpv, Prod.mk.injEq] at h
          cases h.2
        | ok p =>
          obtain ⟨ne, parsedVal⟩ := p
          simp only [hpv] at h ⊢
          by_cases hch : (!pyEq entry.value parsedVal) = true <;> simp only [hch, if_pos, if_neg, Bool.false_eq_true, if_false, if_true] at h ⊢ <;>
            exact ih _ _ _ _ _ h

/-- Claim C10: `Config.update` is not atomic on error — when coercion of key
`k` in the bag raises, the error propagates, while the root-field changes and
every entry value parsed before `k` remain applied, and the changed-key set
accumulated so far is lost. -/
theorem c10_update_not_atomic (c : RootedConfig)
    (upd pre post : List (String × PyVal)) (k : String) (v : PyVal)
    (e : ConfigEntry) (m : String)
    (vals1 : List (String × ConfigEntry)) (ch1 : List String)
    (hupd : upd = pre ++ (k, v) :: post)
    (hk1 : (k == "enabled") = false) (hk2 : (k == "name") = false)
    (hpre : updateEntries (applyRootValues c upd).1.values pre (applyRootValues c upd).2
              = (vals1, .ok ch1))
    (hlook : dictLookup vals1 k = Option.some e)
    (herr : e.parse_value v true = .error m) :
    RootedConfig.update c upd
      = ({ (applyRootValues c upd).1 with values := vals1 }, .error m) := by
  subst hupd
  simp only [RootedConfig.update]
  rw [updateEntries_append pre _ _ _ _ _ hpre]
  simp [updateEntries, hk1, hk2, hlook, herr]

/-- Witness for C10: a three-item bag whose third item fails to coerce leaves
the root change and the first entry change applied and loses the changed
set. -/
theorem c10_update_not_atomic_witness :
    (let aEntry : ConfigEntry := { key := "a", type := .integer, label := "A" }
     let bEntry : ConfigEntry := { key := "b", type := .integer, label := "B" }
     RootedConfig.update
        ⟨[("a", aEntry), ("b", bEntry)], .bool true, PyVal.none⟩
        [("enabled", .bool false), ("a", .int 7), ("b", .str "zz")]
      = (⟨[("a", { aEntry with value := .int 7 }), ("b", bEntry)],
          .bool false, PyVal.none⟩,
         .error "b has unexpected type")) := by
  have h := c10_update_not_atomic
    ⟨[("a", { key := "a", type := .integer, label := "A" }),
      ("b", { key := "b", type := .integer, label := "B" })], .bool true, PyVal.none⟩
    [("enabled", .bool false), ("a", .int 7), ("b", .str "zz")]
    [("enabled", .bool false), ("a", .int 7)] [] "b" (.str "zz")
    { key := "b", type := .integer, label := "B" } "b has unexpected type"
    [("a", { key := "a", type := .integer, label := "A", value := .int 7 }),
     ("b", { key := "b", type := .integer, label := "B" })]
    ["enabled", "values/a"] rfl rfl rfl rfl rfl rfl
  simpa using h

/-! ## Claim C7 -/

/-- Key membership in the raw values produced by the export comprehension:
exactly the keys of entries diverging from their default and not UI-only. -/
theorem toRawValues_mem_iff (enc : Option (String → String)) :
    ∀ (L : List (String × ConfigEntry)) (m : List (String × PyVal)),
      toRawValues enc L = .ok m → (∀ p ∈ L, p.2.key = p.1) → ∀ k,
      ((∃ v, (k, v) ∈ m) ↔
        ∃ e, (k, e) ∈ L ∧ pyEq e.value e.default_value = false ∧ uiOnly e.type = false) := by
  intro L
  induction L with
  | nil =>
    intro m h _ k
    simp [toRawValues] at h
    simp [h]
  | cons p L' ih =>
    intro m h hkeys k
    obtain ⟨k', e'⟩ := p
    have hk' : e'.key = k' := hkeys (k', e') (by simp)
    simp only [toRawValues] at h
    by_cases hcond : (!pyEq e'.value e'.default_value && !uiOnly e'.type) = true
    · rw [if_pos hcond] at h
      obtain ⟨hc1, hc2⟩ := Bool.and_eq_true _ _ |>.mp hcond
      rw [Bool.not_eq_true'] at hc1 hc2
      cases hh : handleValue enc e' with
      | error msg => rw [hh] at h; cases h
      | ok v' =>
        rw [hh] at h
        cases ht : toRawValues enc L' with
        | error msg => rw [ht] at h; cases h
        | ok vs =>
          rw [ht] at h
          cases h
          have ihk := ih vs ht (fun q hq => hkeys q (by simp [hq])) k
          constructor
          · rintro ⟨v, hv⟩
            rcases List.mem_cons.mp hv with hv | hv
            · obtain ⟨h1, _⟩ := Prod.mk.injEq .. ▸ hv
              refine ⟨e', ?_, hc1, hc2⟩
              simp [Prod.ext_iff] at hv
              simp [hv.1, hk']
            · obtain ⟨e, he, hcs⟩ := ihk.mp ⟨v, hv⟩
              exact ⟨e, by simp [he], hcs⟩
          · rintro ⟨e, he, hcs1, hcs2⟩
            rcases List.mem_cons.mp he with he | he
            · simp [Prod.ext_iff] at he
              exact ⟨v', by simp [he.1, hk']⟩
            · obtain ⟨v, hv⟩ := ihk.mpr ⟨e, he, hcs1, hcs2⟩
              exact ⟨v, by simp [hv]⟩
    · rw [if_neg hcond] at h
      have ihk := ih m h (fun q hq => hkeys q (by simp [hq])) k
      rw [ihk]
      constructor
      · rintro ⟨e, he, hcs⟩
        exact ⟨e, by simp [he], hcs⟩
      · rintro ⟨e, he, hcs1, hcs2⟩
        rcases List.mem_cons.mp he with he | he
        · exfalso
          simp [Prod.ext_iff] at he
          rw [he.2] at hcs1 hcs2
          simp [hcs1, hcs2] at hcond
        · exact ⟨e, he, hcs1, hcs2⟩

/-- Claim C7: on a successful minimal export, the `values` section contains
exactly those entry keys whose current value differs (Python `!=`) from the
entry's default and whose kind is not UI-only (Label, Divider, Action,
Alert); entries equal to their default or of a UI-only kind are omitted. -/
theorem c7_minimal_export_keys (c : Config) (enc : Option (String → String))
    (m : List (String × PyVal)) (h : c.to_raw enc = .ok m)
    (hkeys : ∀ p ∈ c.values, p.2.key = p.1) (k : String) :
    (∃ v, (k, v) ∈ m) ↔
      ∃ e, (k, e) ∈ c.values ∧ pyEq e.value e.default_value = false ∧
        uiOnly e.type = false :=
  toRawValues_mem_iff enc c.values m h hkeys k

/-- Witness for C7: the volume entry at 75 (diverging from default 50) is
exported. -/
theorem c7_minimal_export_keys_witness :
    ∃ e, ("volume", e) ∈ (Config.mk [("volume", { volumeEntry with value := .int 75 })]).values ∧
      pyEq e.value e.default_value = false ∧ uiOnly e.type = false := by
  have h := c7_minimal_export_keys
    ⟨[("volume", { volumeEntry with value := .int 75 })]⟩ Option.none
    [("volume", .int 75)] rfl (by intro p hp; simp at hp; simp [hp, volumeEntry]) "volume"
  exact h.mp ⟨.int 75, by simp⟩

/-! ## Claim C2 -/

/-- Looking up the modified key finds the modified value. -/
theorem dictLookup_modify_self {α : Type} (L : List (String × α)) (k : String)
    (f : α → α) : dictLookup (dictModify L k f) k = (dictLookup L k).map f := by
  induction L with
  | nil => simp [dictLookup, dictModify]
  | cons p L ih =>
    obtain ⟨l, w⟩ := p
    by_cases h : (l == k) = true <;> simp [dictModify, dictLookup, h, ih]

/-- Modifying one key does not affect lookups of another. -/
theorem dictLookup_modify_ne {α : Type} (L : List (String × α)) (k k' : String)
    (f : α → α) (h : k' ≠ k) : dictLookup (dictModify L k' f) k = dictLookup L k := by
  induction L with
  | nil => simp [dictModify]
  | cons p L ih =>
    obtain ⟨l, w⟩ := p
    by_cases hl : (l == k') = true
    · have : (l == k) = false := by
        simp only [beq_iff_eq] at hl
        simp [hl, h]
      simp [dictModify, dictLookup, hl, this]
    · simp [dictModify, dictLookup, hl, ih]

/-- Looking up the key just set finds the new value. -/
theorem dictLookup_dictSet_self {α : Type} (L : List (String × α)) (k : String)
    (v : α) : dictLookup (dictSet L k v) k = Option.some v := by
  induction L with
  | nil => simp [dictSet, dictLookup]
  | cons p L ih =>
    obtain ⟨l, w⟩ := p
    by_cases h : (l == k) = true <;> simp [dictSet, dictLookup, h, ih]

/-- Lookup commutes with mapping over values. -/
theorem dictLookup_map_snd {α β : Type} (L : List (String × α)) (g : α → β)
    (k : String) :
    dictLookup (L.map (fun p => (p.1, g p.2))) k = (dictLookup L k).map g := by
  induction L with
  | nil => simp [dictLookup]
  | cons p L ih =>
    obtain ⟨l, w⟩ := p
    by_cases h : (l == k) = true <;> simp [dictLookup, h, ih]

/-- Modification preserves the key list. -/
theorem dictModify_keys {α : Type} (L : List (String × α)) (k : String)
    (f : α → α) : (dictModify L k f).map Prod.fst = L.map Prod.fst := by
  induction L with
  | nil => simp [dictModify]
  | cons p L ih =>
    obtain ⟨l, w⟩ := p
    by_cases h : (l == k) = true <;> simp [dictModify, h, ih]

/-- Unfolding the redaction fold over one entry. -/
theorem redactAll_cons (p : String × ConfigEntry) (vals : List (String × ConfigEntry))
    (L : List (String × PyVal)) :
    redactAll (p :: vals) L =
      redactAll vals
        (if pyTruthy p.2.value && p.2.type == .secure_string then
          dictModify L p.1 redactEntryDict
        else L) := rfl

/-- The redaction fold leaves keys that no entry mentions untouched. -/
theorem redactAll_lookup_notin (vals : List (String × ConfigEntry)) :
    ∀ (L : List (String × PyVal)) (k : String), (∀ p ∈ vals, p.1 ≠ k) →
      dictLookup (redactAll vals L) k = dictLookup L k := by
  induction vals with
  | nil => intro L k _; simp [redactAll]
  | cons p vals ih =>
    intro L k h
    rw [redactAll_cons]
    by_cases hc : (pyTruthy p.2.value && p.2.type == .secure_string) = true
    · rw [if_pos hc, ih _ _ (fun q hq => h q (by simp [hq]))]
      exact dictLookup_modify_ne _ _ _ _ (h p (by simp))
    · rw [if_neg hc]
      exact ih _ _ (fun q hq => h q (by simp [hq]))

/-- Through the redaction fold, the serialized dict of a redacted entry is
seen redacted at its key. -/
theorem redactAll_lookup_found (vals : List (String × ConfigEntry)) :
    ∀ (L : List (String × PyVal)) (k : String) (e : ConfigEntry),
      (vals.map Prod.fst).Nodup → dictLookup vals k = Option.some e →
      (pyTruthy e.value && e.type == .secure_string) = true →
      dictLookup (redactAll vals L) k = (dictLookup L k).map redactEntryDict := by
  induction vals with
  | nil => intro L k e _ h _; simp [dictLookup] at h
  | cons p vals ih =>
    intro L k e hnd hl hc
    obtain ⟨l, w⟩ := p
    rw [redactAll_cons]
    by_cases hk : (l == k) = true
    · have hek : w = e := by simpa [dictLookup, hk] using hl
      have hlk : l = k := by simpa using hk
      subst hek hlk
      rw [if_pos hc]
      rw [List.map_cons] at hnd
      obtain ⟨hhead, -⟩ := List.nodup_cons.mp hnd
      have hnotin : ∀ q ∈ vals, q.1 ≠ l := by
        intro q hq hqe
        exact hhead (List.mem_map.mpr ⟨q, hq, hqe⟩)
      rw [redactAll_lookup_notin vals _ _ hnotin]
      exact dictLookup_modify_self L l redactEntryDict
    · have hl' : dictLookup vals k = Option.some e := by simpa [dictLookup, hk] using hl
      rw [List.map_cons] at hnd
      have hnd' : (vals.map Prod.fst).Nodup := (List.nodup_cons.mp hnd).2
      by_cases hcw : (pyTruthy w.value && w.type == .secure_string) = true
      · rw [if_pos hcw, ih _ _ _ hnd' hl' hc]
        rw [dictLookup_modify_ne _ _ _ _ (by simpa using hk)]
      · rw [if_neg hcw]
        exact ih _ _ _ hnd' hl' hc

/-- `__post_serialize__` preserves the serialized shape and acts on the inner
values dict as `redactAll`. -/
theorem post_serialize_shape (vals : List (String × ConfigEntry)) :
    ∀ (L : List (String × PyVal)),
      Config.post_serialize ⟨vals⟩ (.dict [("values", .dict L)])
        = .dict [("values", .dict (redactAll vals L))] := by
  induction vals with
  | nil => intro L; simp [Config.post_serialize, redactAll]
  | cons p vals ih =>
    intro L
    have hstep : Config.post_serialize ⟨p :: vals⟩ (.dict [("values", .dict L)])
        = Config.post_serialize ⟨vals⟩
            (if pyTruthy p.2.value && p.2.type == .secure_string then
              redactValueField (.dict [("values", .dict L)]) p.1
            else (.dict [("values", .dict L)])) := rfl
    rw [hstep, redactAll_cons]
    by_cases h : (pyTruthy p.2.value && p.2.type == .secure_string) = true
    · rw [if_pos h, if_pos h]
      exact ih (dictModify L p.1 redactEntryDict)
    · rw [if_neg h, if_neg h]
      exact ih L

/-- `to_dict` computed through `redactAll`. -/
theorem to_dict_eq_redactAll (c : Config) :
    c.to_dict
      = .dict [("values",
          .dict (redactAll c.values (c.values.map (fun p => (p.1, p.2.to_dict)))))] := by
  obtain ⟨vals⟩ := c
  exact post_serialize_shape vals _

/-- Redacting a serialized entry erases its current value entirely. -/
theorem redactEntryDict_value_irrelevant (e : ConfigEntry) (v : PyVal) :
    redactEntryDict (ConfigEntry.to_dict { e with value := v })
      = redactEntryDict e.to_dict := rfl

/-- The redaction fold passes over a leading serialized pair whose key none
of the entries carries. -/
theorem redactAll_passthrough (vals : List (String × ConfigEntry)) :
    ∀ (xk : String) (xv : PyVal) (M : List (String × PyVal)),
      (∀ p ∈ vals, p.1 ≠ xk) →
      redactAll vals ((xk, xv) :: M) = (xk, xv) :: redactAll vals M := by
  induction vals with
  | nil => intro xk xv M _; simp [redactAll]
  | cons q vals ih =>
    intro xk xv M h
    rw [redactAll_cons, redactAll_cons]
    by_cases hc : (pyTruthy q.2.value && q.2.type == .secure_string) = true
    · rw [if_pos hc, if_pos hc]
      have hxq : (xk == q.1) = false :=
        beq_eq_false_iff_ne.mpr (Ne.symm (h q (by simp)))
      have hstep : dictModify ((xk, xv) :: M) q.1 redactEntryDict
          = (xk, xv) :: dictModify M q.1 redactEntryDict := by
        simp [dictModify, hxq]
      rw [hstep]
      exact ih xk xv _ (fun p hp => h p (by simp [hp]))
    · rw [if_neg hc, if_neg hc]
      exact ih xk xv M (fun p hp => h p (by simp [hp]))

/-- Changing the current value of one non-empty secure-string entry leaves
the fully redacted serialization unchanged. -/
theorem redactAll_value_change (s₂ : String) :
    ∀ (vals : List (String × ConfigEntry)) (k : String) (e : ConfigEntry),
      (vals.map Prod.fst).Nodup → dictLookup vals k = Option.some e →
      (pyTruthy e.value && e.type == .secure_string) = true →
      (pyTruthy (PyVal.str s₂) && e.type == .secure_string) = true →
      redactAll (dictModify vals k (fun e => { e with value := .str s₂ }))
          ((dictModify vals k (fun e => { e with value := .str s₂ })).map
            (fun p => (p.1, p.2.to_dict)))
        = redactAll vals (vals.map (fun p => (p.1, p.2.to_dict))) := by
  intro vals
  induction vals with
  | nil => intro k e _ hl _ _; simp [dictLookup] at hl
  | cons p vals ih =>
    intro k e hnd hl hce hcf
    obtain ⟨l, w⟩ := p
    rw [List.map_cons] at hnd
    obtain ⟨hhead, hnd'⟩ := List.nodup_cons.mp hnd
    by_cases hk : (l == k) = true
    · have hek : w = e := by simpa [dictLookup, hk] using hl
      have hlk : l = k := by simpa using hk
      subst hek hlk
      have hmod : dictModify ((l, w) :: vals) l (fun e => { e with value := .str s₂ })
          = (l, { w with value := PyVal.str s₂ }) :: vals := by
        simp [dictModify]
      rw [hmod, List.map_cons, List.map_cons, redactAll_cons, redactAll_cons]
      have hcw2 : (pyTruthy ({ w with value := PyVal.str s₂ } : ConfigEntry).value &&
          ({ w with value := PyVal.str s₂ } : ConfigEntry).type == .secure_string) = true := hcf
      rw [if_pos hcw2, if_pos hce]
      have hm1 : dictModify
          ((l, ConfigEntry.to_dict { w with value := PyVal.str s₂ }) ::
            vals.map (fun p => (p.1, p.2.to_dict))) l redactEntryDict
          = (l, redactEntryDict (ConfigEntry.to_dict { w with value := PyVal.str s₂ })) ::
            vals.map (fun p => (p.1, p.2.to_dict)) := by
        simp [dictModify]
      have hm2 : dictModify
          ((l, w.to_dict) :: vals.map (fun p => (p.1, p.2.to_dict))) l redactEntryDict
          = (l, redactEntryDict w.to_dict) :: vals.map (fun p => (p.1, p.2.to_dict)) := by
        simp [dictModify]
      rw [hm1, hm2, redactEntryDict_value_irrelevant]
    · have hl' : dictLookup vals k = Option.some e := by simpa [dictLookup, hk] using hl
      have hkf : (l == k) = false := by
        cases h' : (l == k)
        · rfl
        · exact absurd h' hk
      have hmod : dictModify ((l, w) :: vals) k (fun e => { e with value := .str s₂ })
          = (l, w) :: dictModify vals k (fun e => { e with value := .str s₂ }) := by
        simp [dictModify, hkf]
      rw [hmod, List.map_cons, List.map_cons, redactAll_cons, redactAll_cons]
      have havoid : ∀ q ∈ dictModify vals k (fun e => { e with value := .str s₂ }), q.1 ≠ l := by
        intro q hq hql
        apply hhead
        have : q.1 ∈ (dictModify vals k (fun e => { e with value := .str s₂ })).map Prod.fst :=
          List.mem_map_of_mem Prod.fst hq
        rw [dictModify_keys] at this
        exact hql ▸ this
      have havoid2 : ∀ q ∈ vals, q.1 ≠ l := by
        intro q hq hql
        exact hhead (List.mem_map.mpr ⟨q, hq, hql⟩)
      by_cases hcw : (pyTruthy w.value && w.type == .secure_string) = true
      · rw [if_pos hcw, if_pos hcw]
        have hstep1 : dictModify
            ((l, w.to_dict) ::
              (dictModify vals k (fun e => { e with value := .str s₂ })).map
                (fun p => (p.1, p.2.to_dict))) l redactEntryDict
            = (l, redactEntryDict w.to_dict) ::
              (dictModify vals k (fun e => { e with value := .str s₂ })).map
                (fun p => (p.1, p.2.to_dict)) := by
          simp [dictModify]
        have hstep2 : dictModify
            ((l, w.to_dict) :: vals.map (fun p => (p.1, p.2.to_dict))) l redactEntryDict
            = (l, redactEntryDict w.to_dict) :: vals.map (fun p => (p.1, p.2.to_dict)) := by
          simp [dictModify]
        rw [hstep1, hstep2,
          redactAll_passthrough _ _ _ _ havoid,
          redactAll_passthrough _ _ _ _ havoid2]
        rw [ih k e hnd' hl' hce hcf]
      · rw [if_neg hcw, if_neg hcw]
        rw [redactAll_passthrough _ _ _ _ havoid,
          redactAll_passthrough _ _ _ _ havoid2]
        rw [ih k e hnd' hl' hce hcf]

/-- Claim C2 counterexample: the redaction hook replaces only the `value`
field; the stored secret still appears in the redacted output when it
coincides with another serialized field — here the entry's own
`default_value`. So the output is not free of the stored value "anywhere". -/
theorem c2_secret_still_in_output :
    (∃ e, dictLookup cexSecretConfig.values "pw" = Option.some e ∧
        e.type = .secure_string ∧ e.value = .str "s3cret" ∧ "s3cret" ≠ "") ∧
      mentions "s3cret" cexSecretConfig.to_dict = true :=
  ⟨⟨_, rfl, rfl, rfl, by decide⟩, rfl⟩

/-- Claim C2 (amended): for every Configuration with unique keys containing a
SecureString entry whose current value is a non-empty string, the redacted
display serialization replaces that entry's `value` field with the fixed
placeholder constant, and two Configurations differing only in that
(non-empty) value produce identical redacted output — the value field reveals
nothing. (The stored value may still appear elsewhere in the output when
another serialized field, such as a `default_value`, coincides with it.) -/
theorem c2_redacted_display (c : Config) (k : String) (e : ConfigEntry)
    (s₁ s₂ : String) (hnd : (c.values.map Prod.fst).Nodup)
    (hl : dictLookup c.values k = Option.some e)
    (ht : e.type = .secure_string) (hv : e.value = .str s₁)
    (h1 : s₁ ≠ "") (h2 : s₂ ≠ "") :
    valueFieldOf c.to_dict k = Option.some (.str SECURE_STRING_SUBSTITUTE) ∧
      (setEntryValue c k (.str s₂)).to_dict = c.to_dict := by
  have hce : (pyTruthy e.value && e.type == .secure_string) = true := by
    rw [hv, ht]
    simp [pyTruthy, h1]
  have hcf : (pyTruthy (PyVal.str s₂) && e.type == .secure_string) = true := by
    rw [ht]
    simp [pyTruthy, h2]
  constructor
  · rw [to_dict_eq_redactAll]
    have hM : dictLookup
        (redactAll c.values (c.values.map (fun p => (p.1, p.2.to_dict)))) k
        = Option.some (redactEntryDict e.to_dict) := by
      rw [redactAll_lookup_found c.values _ _ _ hnd hl hce, dictLookup_map_snd, hl]
      rfl
    have hred : redactEntryDict e.to_dict
        = .dict (dictSet
            [("key", .str e.key), ("type", .str e.type.wire), ("label", .str e.label),
             ("default_value", serializeValue e.default_value), ("required", .bool e.required),
             ("options",
               match e.options with
               | Option.none => PyVal.none
               | Option.some os => .list (os.map ConfigValueOption.to_dict)),
             ("range",
               match e.range with
               | Option.none => PyVal.none
               | Option.some (a, b) => .list [.int a, .int b]),
             ("description", serializeOptStr e.description),
             ("help_link", serializeOptStr e.help_link),
             ("multi_value", .bool e.multi_value),
             ("depends_on", serializeOptStr e.depends_on),
             ("depends_on_value", serializeOptStr e.depends_on_value),
             ("hidden", .bool e.hidden), ("category", .str e.category),
             ("action", serializeOptStr e.action),
             ("action_label", serializeOptStr e.action_label),
             ("value", serializeValue e.value)]
            "value" (.str SECURE_STRING_SUBSTITUTE)) := rfl
    simp only [valueFieldOf, dictLookup,
      show (("values" : String) == "values") = true from rfl, if_true, hM, hred]
    rfl
  · rw [to_dict_eq_redactAll, to_dict_eq_redactAll]
    simp only [setEntryValue]
    rw [redactAll_value_change s₂ c.values k e hnd hl hce hcf]

/-- Witness for C2 at the concrete secret configuration. -/
theorem c2_redacted_display_witness :
    valueFieldOf cexSecretConfig.to_dict "pw"
        = Option.some (.str SECURE_STRING_SUBSTITUTE) ∧
      (setEntryValue cexSecretConfig "pw" (.str "other")).to_dict
        = cexSecretConfig.to_dict := by
  have h := c2_redacted_display cexSecretConfig "pw"
    { key := "pw", type := .secure_string, label := "Password",
      default_value := .str "s3cret", value := .str "s3cret" }
    "s3cret" "other" (by simp [cexSecretConfig]) rfl rfl rfl (by decide) (by decide)
  exact h

/-! ## Claim C3 -/

set_option maxHeartbeats 2000000 in
/-- On success, the returned entry is the input entry with the parsed value
written into `value` (the source's `self.value = ...`). -/
theorem parse_value_ok_shape (e : ConfigEntry) (x : PyVal) (a : Bool)
    (ne : ConfigEntry) (v : PyVal)
    (h : e.parse_value x a = .ok (ne, v)) : ne = { e with value := v } := by
  simp only [ConfigEntry.parse_value] at h
  repeat' split at h
  all_goals first
    | (simp only [Except.ok.injEq, Prod.mk.injEq] at h
       obtain ⟨h1, h2⟩ := h
       subst h2
       exact h1.symm)
    | simp at h

/-- A well-typed default is never an enum member, so the in-place unwrapping
is the identity. -/
theorem unwrapEnumDefault_eq_self (e : ConfigEntry) (hd : defaultOk e) :
    unwrapEnumDefault e = e := by
  cases hdv : e.default_value <;> simp [unwrapEnumDefault, hdv]
  rcases hd with h | h
  · rw [hdv] at h; cases h
  · rw [hdv] at h
    cases hpt : expectedOf e <;> rw [hpt] at h <;> simp [isinstance] at h

/-- Unwrapping the default preserves the key. -/
theorem unwrapEnumDefault_key (e : ConfigEntry) :
    (unwrapEnumDefault e).key = e.key := by
  cases hdv : e.default_value <;> simp [unwrapEnumDefault, hdv]

/-- Inserting a fresh key appends. -/
theorem dictSet_fresh {α : Type} (L : List (String × α)) (k : String) (v : α)
    (h : k ∉ L.map Prod.fst) : dictSet L k v = L ++ [(k, v)] := by
  induction L with
  | nil => simp [dictSet]
  | cons p L ih =>
    obtain ⟨l, w⟩ := p
    have hlk : (l == k) = false := by
      simp only [List.map_cons, List.mem_cons] at h
      simp only [beq_eq_false_iff_ne]
      exact fun hc => h (Or.inl hc.symm)
    simp only [dictSet, hlk]
    simp only [List.map_cons, List.mem_cons] at h
    simp [ih (fun hc => h (Or.inr hc))]

/-- Absent keys look up to `Option.none`. -/
theorem dictLookup_eq_none {α : Type} (L : List (String × α)) (k : String)
    (h : k ∉ L.map Prod.fst) : dictLookup L k = Option.none := by
  induction L with
  | nil => simp [dictLookup]
  | cons p L ih =>
    obtain ⟨l, w⟩ := p
    simp only [List.map_cons, List.mem_cons] at h
    have hlk : (l == k) = false := by
      simp only [beq_eq_false_iff_ne]
      exact fun hc => h (Or.inl hc.symm)
    simp [dictLookup, hlk, ih (fun hc => h (Or.inr hc))]

/-- `d.get(k)` of an absent key is `None`. -/
theorem dictGet_eq_none (L : List (String × PyVal)) (k : String)
    (h : k ∉ L.map Prod.fst) : dictGet L k = PyVal.none := by
  simp [dictGet, dictLookup_eq_none L k h]

/-- `d.get(k)` at a leading pair with that key. -/
theorem dictGet_cons_self (k : String) (v : PyVal) (M : List (String × PyVal)) :
    dictGet ((k, v) :: M) k = v := by
  simp [dictGet, dictLookup]

/-- `d.get(k)` skips a leading pair with another key. -/
theorem dictGet_cons_ne (l k : String) (v : PyVal) (M : List (String × PyVal))
    (h : (l == k) = false) : dictGet ((l, v) :: M) k = dictGet M k := by
  simp [dictGet, dictLookup, h]

set_option maxHeartbeats 4000000 in
/-- A successful parse of a non-UI-only entry whose result diverges from the
default yields a non-none value of the entry's expected family. -/
theorem parse_value_ok_family (e : ConfigEntry) (x : PyVal) (ne : ConfigEntry) (v : PyVal)
    (h : e.parse_value x true = .ok (ne, v))
    (hui : uiOnly e.type = false) (hne : pyEq v e.default_value = false) :
    v.isNone = false ∧ isinstance v (expectedOf e) = .ok true := by
  have hlab : (e.type == ConfigEntryType.label) = false := by
    simp only [uiOnly, Bool.or_eq_false_iff] at hui
    exact hui.1.1.1
  by_cases hx : x.isNone = true
  · obtain hxv := (PyVal.isNone_iff x).mp hx
    subst hxv
    by_cases hdn : e.default_value.isNone = true
    · obtain hdv := (PyVal.isNone_iff _).mp hdn
      simp only [ConfigEntry.parse_value, hdv, hlab] at h
      simp only [show PyVal.none.isNone = true from rfl, if_true, Bool.true_and, isinstance] at h
      repeat' split at h
      all_goals try simp_all [expectedOf, isinstance, pyEq_refl, PyVal.isNone, pyEq]
    · have hdnf : e.default_value.isNone = false := by
        cases hdb : e.default_value.isNone
        · rfl
        · exact absurd hdb hdn
      simp only [ConfigEntry.parse_value, hlab,
        show PyVal.none.isNone = true from rfl, if_true, hdnf, Bool.false_and] at h
      repeat' split at h
      all_goals try simp_all [expectedOf, isinstance, pyEq_refl, PyVal.isNone, pyEq]
      all_goals (obtain ⟨h1, h2⟩ := h; subst h2; simp)
  · have hxf : x.isNone = false := by
      cases hxb : x.isNone
      · rfl
      · exact absurd hxb hx
    simp only [ConfigEntry.parse_value, hlab, hxf, Bool.false_eq_true, if_false,
      Bool.false_and] at h
    repeat' split at h
    all_goals try simp_all [expectedOf, isinstance, pyEq_refl, PyVal.isNone, pyEq]
    all_goals (obtain ⟨h1, h2⟩ := h; subst h2; simp)

/-- `PyVal.none` is none. -/
theorem pyNone_isNone : PyVal.none.isNone = true := rfl

/-- Coercing an absent value on a non-UI-only entry with a well-typed schema
default succeeds and stores the default. -/
theorem parse_value_none_default (e : ConfigEntry) (hd : defaultOk e)
    (hui : uiOnly e.type = false) :
    e.parse_value PyVal.none true
      = .ok ({ e with value := e.default_value }, e.default_value) := by
  have hlab : (e.type == ConfigEntryType.label) = false := by
    simp only [uiOnly, Bool.or_eq_false_iff] at hui
    exact hui.1.1.1
  by_cases hdn : e.default_value.isNone = true
  · obtain hdv := (PyVal.isNone_iff _).mp hdn
    simp [ConfigEntry.parse_value, hdv, hlab, isinstance, pyNone_isNone]
  · have hdnf : e.default_value.isNone = false := by
      cases hdb : e.default_value.isNone
      · rfl
      · exact absurd hdb hdn
    have hm : isinstance e.default_value (expectedOf e) = .ok true := by
      rcases hd with h | h
      · rw [h] at hdnf; simp [PyVal.isNone] at hdnf
      · exact h
    simp only [expectedOf] at hm
    simp [ConfigEntry.parse_value, hlab, hdnf, hm, pyNone_isNone]

/-- Coercing a non-none value of the expected family on a non-UI-only entry
echoes the value. -/
theorem parse_value_echo (e : ConfigEntry) (v : PyVal)
    (hv : v.isNone = false) (hm : isinstance v (expectedOf e) = .ok true)
    (hui : uiOnly e.type = false) :
    e.parse_value v true = .ok ({ e with value := v }, v) := by
  have hlab : (e.type == ConfigEntryType.label) = false := by
    simp only [uiOnly, Bool.or_eq_false_iff] at hui
    exact hui.1.1.1
  simp only [expectedOf] at hm
  simp [ConfigEntry.parse_value, hv, hlab, hm]

/-- Coercing an absent value on a UI-only entry with a well-typed default
always succeeds. -/
theorem parse_value_none_ui (e : ConfigEntry) (hd : defaultOk e)
    (hui : uiOnly e.type = true) :
    ∃ v, e.parse_value PyVal.none true = .ok ({ e with value := v }, v) := by
  by_cases hdn : e.default_value.isNone = true
  · obtain hdv := (PyVal.isNone_iff _).mp hdn
    by_cases hlabel : e.type = ConfigEntryType.label
    · refine ⟨PyVal.none, ?_⟩
      simp [ConfigEntry.parse_value, hdv, hlabel, isinstance, uiOnly, pyNone_isNone]
    · refine ⟨PyVal.none, ?_⟩
      simp [ConfigEntry.parse_value, hdv, hlabel, isinstance, pyNone_isNone]
  · have hdnf : e.default_value.isNone = false := by
      cases hdb : e.default_value.isNone
      · rfl
      · exact absurd hdb hdn
    have hm : isinstance e.default_value (expectedOf e) = .ok true := by
      rcases hd with h | h
      · rw [h] at hdnf; simp [PyVal.isNone] at hdnf
      · exact h
    by_cases hlabel : e.type = ConfigEntryType.label
    · by_cases hmv : e.multi_value = true
      · refine ⟨e.default_value, ?_⟩
        have hexp : expectedOf e = .listT := by simp [expectedOf, hmv]
        rw [hexp] at hm
        simp [ConfigEntry.parse_value, hlabel, hdnf, hmv, uiOnly, isinstance, pyNone_isNone]
      · refine ⟨.str e.label, ?_⟩
        have hmvf : e.multi_value = false := by
          cases hmb : e.multi_value
          · rfl
          · exact absurd hmb hmv
        simp [ConfigEntry.parse_value, hlabel, hdnf, hmvf, isinstance, configEntryTypeMap,
          pyNone_isNone]
    · refine ⟨e.default_value, ?_⟩
      have hlab2 : (e.type == ConfigEntryType.label) = false := by simp [hlabel]
      simp only [expectedOf] at hm
      simp [ConfigEntry.parse_value, hlab2, hdnf, hm, pyNone_isNone]


theorem parseEntries_eq (schema : List ConfigEntry) :
    ∀ (vals : List (String × ConfigEntry)) (raw : List (String × PyVal)),
      (schema.map (fun e => e.key)).Nodup →
      (∀ e ∈ schema, e.key ∉ vals.map Prod.fst) →
      parseEntries vals schema raw
        = (buildRows raw schema).map
            (fun rows => (vals ++ rows, schema.map unwrapEnumDefault)) := by
  induction schema with
  | nil => intro vals raw _ _; simp [parseEntries, buildRows, Except.map]
  | cons e rest ih =>
    intro vals raw hnd hfresh
    rw [List.map_cons] at hnd
    obtain ⟨hhead, hndr⟩ := List.nodup_cons.mp hnd
    simp only [parseEntries, buildRows, parseRow]
    cases hp : (unwrapEnumDefault e).parse_value (dictGet raw (unwrapEnumDefault e).key) true with
    | error m => simp [Except.map]
    | ok p =>
      obtain ⟨ne, v⟩ := p
      simp only
      have hkey : (unwrapEnumDefault e).key = e.key := unwrapEnumDefault_key e
      have hfr : e.key ∉ vals.map Prod.fst := hfresh e (by simp)
      rw [hkey, dictSet_fresh vals e.key ne hfr]
      have hfresh2 : ∀ e2 ∈ rest, e2.key ∉ (vals ++ [(e.key, ne)]).map Prod.fst := by
        intro e2 he2
        simp only [List.map_append, List.mem_append]
        rintro (hc | hc)
        · exact hfresh e2 (by simp [he2]) hc
        · simp at hc
          exact hhead (hc ▸ List.mem_map.mpr ⟨e2, he2, rfl⟩)
      rw [ih (vals ++ [(e.key, ne)]) raw hndr hfresh2]
      cases hbr : buildRows raw rest <;> simp [Except.map]

theorem config_parse_eq (schema : List ConfigEntry) (raw : List (String × PyVal))
    (hnd : (schema.map (fun e => e.key)).Nodup) :
    Config.parse schema raw
      = (buildRows raw schema).map
          (fun rows => (⟨rows⟩, schema.map unwrapEnumDefault)) := by
  simp only [Config.parse, parseEntries_eq schema [] raw hnd (by simp)]
  cases buildRows raw schema <;> simp [Except.map]

theorem buildRows_entry_keys (raw : List (String × PyVal)) :
    ∀ (es : List ConfigEntry) (rows : List (String × ConfigEntry)),
      (∀ e ∈ es, defaultOk e) → buildRows raw es = .ok rows →
      rows.map (fun p => p.2.key) = es.map (fun e => e.key) := by
  intro es
  induction es with
  | nil => intro rows _ hb; simp [buildRows] at hb; simp [hb.symm]
  | cons e rest ih =>
    intro rows hd hb
    simp only [buildRows, parseRow, unwrapEnumDefault_eq_self e (hd e (by simp))] at hb
    cases hp : e.parse_value (dictGet raw e.key) true with
    | error m => rw [hp] at hb; cases hb
    | ok p =>
      obtain ⟨ne, v⟩ := p
      rw [hp] at hb
      simp only at hb
      cases hbr : buildRows raw rest with
      | error m => rw [hbr] at hb; cases hb
      | ok tail =>
        rw [hbr] at hb
        simp only [Except.ok.injEq] at hb
        subst hb
        have hshape := parse_value_ok_shape e _ true ne v hp
        subst hshape
        simp [ih tail (fun e2 he2 => hd e2 (by simp [he2])) hbr]

theorem toRawValues_keys_subset (enc : Option (String → String)) :
    ∀ (rows : List (String × ConfigEntry)) (m : List (String × PyVal)),
      toRawValues enc rows = .ok m →
      ∀ km ∈ m.map Prod.fst, km ∈ rows.map (fun p => p.2.key) := by
  intro rows
  induction rows with
  | nil =>
    intro m h km hm
    simp [toRawValues] at h
    subst h
    simp at hm
  | cons p rows ih =>
    intro m h km hm
    obtain ⟨l, e⟩ := p
    simp only [toRawValues] at h
    by_cases hc : (!pyEq e.value e.default_value && !uiOnly e.type) = true
    · rw [if_pos hc] at h
      cases hh : handleValue enc e with
      | error msg => rw [hh] at h; cases h
      | ok v =>
        rw [hh] at h
        cases ht : toRawValues enc rows with
        | error msg => rw [ht] at h; cases h
        | ok vs =>
          rw [ht] at h
          simp only [Except.ok.injEq] at h
          subst h
          simp only [List.map_cons, List.mem_cons] at hm ⊢
          rcases hm with hm | hm
          · exact Or.inl hm
          · exact Or.inr (ih vs ht km hm)
    · rw [if_neg hc] at h
      simp only [List.map_cons, List.mem_cons]
      exact Or.inr (ih m h km hm)


set_option maxHeartbeats 4000000 in
/-- Round-trip kernel: rebuilding each schema entry from the minimal export
and re-exporting reproduces the same minimal bag, given idempotent
encryption, unique keys, well-typed defaults and none defaults on secure
entries. -/
theorem c3_main (f : String → String) (hf : ∀ s, f (f s) = f s) :
    ∀ (es : List ConfigEntry) (raw : List (String × PyVal))
      (rows : List (String × ConfigEntry)) (m1 : List (String × PyVal)),
      (es.map (fun e => e.key)).Nodup →
      (∀ e ∈ es, defaultOk e) →
      (∀ e ∈ es, e.type = ConfigEntryType.secure_string → e.default_value = PyVal.none) →
      buildRows raw es = .ok rows →
      toRawValues (Option.some f) rows = .ok m1 →
      ∀ raw2 : List (String × PyVal),
        (∀ e ∈ es, dictGet raw2 e.key = dictGet m1 e.key) →
        (∀ km ∈ m1.map Prod.fst, km ∈ es.map (fun e => e.key)) ∧
        ∃ rows2, buildRows raw2 es = .ok rows2 ∧
          toRawValues (Option.some f) rows2 = .ok m1 := by
  intro es
  induction es with
  | nil =>
    intro raw rows m1 _ _ _ hb ht raw2 _
    simp only [buildRows, Except.ok.injEq] at hb
    subst hb
    simp only [toRawValues, Except.ok.injEq] at ht
    subst ht
    exact ⟨by simp, [], rfl, rfl⟩
  | cons e rest ih =>
    intro raw rows m1 hnd hdef hsec hb ht raw2 hraw2
    rw [List.map_cons] at hnd
    obtain ⟨hhead, hndr⟩ := List.nodup_cons.mp hnd
    have hdefe : defaultOk e := hdef e (by simp)
    simp only [buildRows, parseRow, unwrapEnumDefault_eq_self e hdefe] at hb
    cases hp : e.parse_value (dictGet raw e.key) true with
    | error m => rw [hp] at hb; cases hb
    | ok p =>
      obtain ⟨ne, v⟩ := p
      rw [hp] at hb
      simp only at hb
      cases hbr : buildRows raw rest with
      | error m => rw [hbr] at hb; cases hb
      | ok tail =>
        rw [hbr] at hb
        simp only [Except.ok.injEq] at hb
        subst hb
        have hshape := parse_value_ok_shape e _ true ne v hp
        subst hshape
        simp only [toRawValues] at ht
        by_cases hcond : (!pyEq ({ e with value := v } : ConfigEntry).value
            ({ e with value := v } : ConfigEntry).default_value &&
            !uiOnly ({ e with value := v } : ConfigEntry).type) = true
        · -- head exported
          rw [if_pos hcond] at ht
          have hc0 := Bool.and_eq_true _ _ |>.mp hcond
          have hc1 : pyEq v e.default_value = false := by
            have := hc0.1
            simpa using this
          have hc2 : uiOnly e.type = false := by
            have := hc0.2
            simpa using this
          cases hh : handleValue (Option.some f) { e with value := v } with
          | error msg => rw [hh] at ht; cases ht
          | ok hv =>
            rw [hh] at ht
            cases htail : toRawValues (Option.some f) tail with
            | error msg => rw [htail] at ht; cases ht
            | ok mtail =>
              rw [htail] at ht
              simp only [Except.ok.injEq] at ht
              subst ht
              have hfam := parse_value_ok_family e _ _ _ hp hc2 hc1
              -- tail lookups agree with mtail
              have hraw2t : ∀ e2 ∈ rest, dictGet raw2 e2.key = dictGet mtail e2.key := by
                intro e2 he2
                have hne : (({ e with value := v } : ConfigEntry).key == e2.key) = false := by
                  simp only [beq_eq_false_iff_ne]
                  intro hc
                  exact hhead (hc ▸ List.mem_map.mpr ⟨e2, he2, rfl⟩)
                have := hraw2 e2 (by simp [he2])
                rwa [dictGet_cons_ne _ _ _ _ hne] at this
              obtain ⟨hsub, rows2t, hb2t, ht2t⟩ :=
                ih raw tail mtail hndr (fun e2 he2 => hdef e2 (by simp [he2]))
                  (fun e2 he2 hs => hsec e2 (by simp [he2]) hs) hbr htail raw2 hraw2t
              have hhd : dictGet raw2 e.key = hv := by
                have := hraw2 e (by simp)
                rwa [show (({ e with value := v } : ConfigEntry).key) = e.key from rfl,
                  dictGet_cons_self] at this
              refine ⟨?_, ?_⟩
              · intro km hkm
                simp only [List.map_cons, List.mem_cons] at hkm ⊢
                rcases hkm with hkm | hkm
                · exact Or.inl hkm
                · exact Or.inr (hsub km hkm)
              by_cases hsecure : e.type = ConfigEntryType.secure_string
              · -- secure entry
                obtain ⟨s, hvs, hhv⟩ : ∃ s, v = .str s ∧ hv = .str (f s) := by
                  simp only [handleValue, show (({ e with value := v } : ConfigEntry).type
                    == ConfigEntryType.secure_string) = true by simp [hsecure]] at hh
                  cases v <;> simp at hh
                  exact ⟨_, rfl, hh.symm⟩
                subst hvs
                subst hhv
                have hdefnone : e.default_value = PyVal.none := hsec e (by simp) hsecure
                have hexp : expectedOf e = PyType.strT := by
                  cases hpt : expectedOf e <;> rw [hpt] at hfam <;>
                    first
                      | rfl
                      | (exact absurd hfam.2 (by simp [isinstance]))
                have hecho := parse_value_echo e (.str (f s)) (by simp [PyVal.isNone])
                  (by rw [hexp]; simp [isinstance]) hc2
                refine ⟨(e.key, { e with value := .str (f s) }) :: rows2t, ?_, ?_⟩
                · simp only [buildRows, parseRow, unwrapEnumDefault_eq_self e hdefe, hhd,
                    hecho, hb2t]
                · simp only [toRawValues]
                  rw [if_pos (by rw [hdefnone]; simp [pyEq, hc2])]
                  rw [show handleValue (Option.some f) { e with value := PyVal.str (f s) }
                      = .ok (.str (f (f s))) by
                    simp [handleValue, hsecure]]
                  rw [ht2t]
                  simp [hf s]
              · -- non-secure entry
                have hhv : v = hv := by
                  simp only [handleValue, show (({ e with value := v } : ConfigEntry).type
                    == ConfigEntryType.secure_string) = false by
                      simp [hsecure]] at hh
                  simpa using hh
                subst hhv
                have hecho := parse_value_echo e v hfam.1 hfam.2 hc2
                refine ⟨(e.key, { e with value := v }) :: rows2t, ?_, ?_⟩
                · simp only [buildRows, parseRow, unwrapEnumDefault_eq_self e hdefe, hhd,
                    hecho, hb2t]
                · simp only [toRawValues]
                  rw [if_pos hcond]
                  rw [show handleValue (Option.some f) { e with value := v } = .ok v by
                    simp [handleValue, hsecure]]
                  rw [ht2t]
        · -- head not exported
          rw [if_neg hcond] at ht
          have hraw2t : ∀ e2 ∈ rest, dictGet raw2 e2.key = dictGet m1 e2.key :=
            fun e2 he2 => hraw2 e2 (by simp [he2])
          obtain ⟨hsub, rows2t, hb2t, ht2t⟩ :=
            ih raw tail m1 hndr (fun e2 he2 => hdef e2 (by simp [he2]))
              (fun e2 he2 hs => hsec e2 (by simp [he2]) hs) hbr ht raw2 hraw2t
          have hkeynot : e.key ∉ m1.map Prod.fst := by
            intro hc
            apply hhead
            have := hsub e.key hc
            exact this
          have hhd : dictGet raw2 e.key = PyVal.none := by
            have := hraw2 e (by simp)
            rwa [dictGet_eq_none m1 e.key hkeynot] at this
          have hcondf := hcond
          simp only [Bool.and_eq_true, Bool.not_eq_true', not_and_or] at hcondf
          refine ⟨?_, ?_⟩
          · intro km hkm
            simp only [List.map_cons, List.mem_cons]
            exact Or.inr (hsub km hkm)
          by_cases hui : uiOnly e.type = true
          · obtain ⟨v2, hpv2⟩ := parse_value_none_ui e hdefe hui
            refine ⟨(e.key, { e with value := v2 }) :: rows2t, ?_, ?_⟩
            · simp only [buildRows, parseRow, unwrapEnumDefault_eq_self e hdefe, hhd,
                hpv2, hb2t]
            · simp only [toRawValues]
              rw [if_neg (by simp [hui])]
              exact ht2t
          · have hui2 : uiOnly e.type = false := by
              cases hub : uiOnly e.type
              · rfl
              · exact absurd hub hui
            have hpq : pyEq v e.default_value = true := by
              rcases hcondf with hcf | hcf
              · cases hb : pyEq v e.default_value
                · exact absurd hb hcf
                · rfl
              · exact absurd hui2 hcf
            have hpar := parse_value_none_default e hdefe hui2
            refine ⟨(e.key, { e with value := e.default_value }) :: rows2t, ?_, ?_⟩
            · simp only [buildRows, parseRow, unwrapEnumDefault_eq_self e hdefe, hhd,
                hpar, hb2t]
            · simp only [toRawValues]
              rw [if_neg (by simp [pyEq_refl])]
              exact ht2t

/-- Claim C3 counterexample: with the same deterministic (but
non-idempotent) encrypt callback installed on both sides, the minimal bag is
re-encrypted on every export, so the round trip does not reproduce it. -/
theorem c3_not_idempotent :
    buildThenExport [cexSecureEntry] [("pw", .str "s")] (Option.some cexPrefixEncrypt)
        = .ok [("pw", .str "Es")] ∧
      buildThenExport [cexSecureEntry] [("pw", .str "Es")] (Option.some cexPrefixEncrypt)
        = .ok [("pw", .str "EEs")] ∧
      (PyVal.str "EEs" : PyVal) ≠ .str "Es" :=
  ⟨rfl, rfl, by simp⟩

/-- Claim C3 (amended): for every schema with unique keys whose defaults are
absent or of their declared family (and absent for SecureString entries), and
the same secrecy strategy with an idempotent encrypt installed on both sides,
composing build and export_minimal is idempotent on the minimal bag: when
`export_minimal(build(schema, raw))` succeeds with bag `m1`,
`export_minimal(build(schema, m1))` succeeds and returns `m1` again. -/
theorem c3_roundtrip_stable (schema : List ConfigEntry)
    (raw : List (String × PyVal)) (f : String → String)
    (hf : ∀ s, f (f s) = f s)
    (hnd : (schema.map (fun e => e.key)).Nodup)
    (hdef : ∀ e ∈ schema, defaultOk e)
    (hsec : ∀ e ∈ schema, e.type = ConfigEntryType.secure_string →
      e.default_value = PyVal.none)
    (m1 : List (String × PyVal))
    (h1 : buildThenExport schema raw (Option.some f) = .ok m1) :
    buildThenExport schema m1 (Option.some f) = .ok m1 := by
  simp only [buildThenExport] at h1 ⊢
  rw [config_parse_eq schema raw hnd] at h1
  cases hb : buildRows raw schema with
  | error m => rw [hb] at h1; cases h1
  | ok rows =>
    rw [hb] at h1
    simp only [Except.map] at h1
    obtain ⟨-, rows2, hb2, ht2⟩ :=
      c3_main f hf schema raw rows m1 hnd hdef hsec hb h1 m1 (fun e _ => rfl)
    rw [config_parse_eq schema m1 hnd, hb2]
    simpa [Except.map, Config.to_raw] using ht2

/-- Witness for C3 at a two-entry schema (an Integer and a SecureString) with
identity encryption. -/
theorem c3_roundtrip_stable_witness :
    buildThenExport [volumeEntry, cexSecureEntry]
        [("volume", PyVal.int 80), ("pw", PyVal.str "sec")] (Option.some (fun s => s))
      = .ok [("volume", PyVal.int 80), ("pw", PyVal.str "sec")] := by
  have h := c3_roundtrip_stable [volumeEntry, cexSecureEntry]
    [("volume", PyVal.int 80), ("pw", PyVal.str "sec")] (fun s => s)
    (fun _ => rfl) (by decide)
    (by
      intro e he
      simp only [List.mem_cons, List.not_mem_nil, or_false] at he
      rcases he with h | h <;> subst h
      · exact Or.inr rfl
      · exact Or.inl rfl)
    (by
      intro e he ht
      simp only [List.mem_cons, List.not_mem_nil, or_false] at he
      rcases he with h | h <;> subst h
      · exact absurd ht (by decide)
      · rfl)
    [("volume", PyVal.int 80), ("pw", PyVal.str "sec")] rfl
  exact h

end MAConfig
